import Mathlib

/-!
# shlx: session / relay engine

A shallow embedding of the Go packages `backend/session`, `backend/pty` and of the
role resolution and control-message handling of `backend/websocket`.

Conventions of the embedding.

* A Go `[]byte` is a list of byte values.
* A Go run-time panic is the `error` side of `Except GoPanic`; a function that can
  panic returns `Except GoPanic _`.
* A Go `error` result is an `Option GoError` (`none` is `nil`).
* Go channels and `*Session` pointers are references (indices) into a store that is
  carried explicitly; `make` appends to the store.
* A Go `map[string]T` is an association list; iteration visits it in list order
  (Go leaves the order unspecified).
* `uuid.New()` and `time.Now()` are inputs of the operation that calls them.
* The reader/writer mutexes make every method atomic, so a method is a function on
  the state.
* A call that never returns has no result: `Terminal.Close`, which waits for the child,
  returns an `Option`. A session has a next state only when the method of its handler
  returns, so the methods of the interface `PTYHandler` are functions.
-/

namespace Shlx

set_option maxRecDepth 100000

/-- A byte slice, `[]byte`. -/
abbrev Bytes := List Nat

/-- Run-time panics of the Go operations used by the program. -/
inductive GoPanic where
  | closeOfClosedChannel
  | closeOfNilChannel
  | sendOnClosedChannel
  | nilPointerDereference
  | interfaceConversion
  deriving DecidableEq, Repr

instance {ε α : Type} [DecidableEq ε] [DecidableEq α] : DecidableEq (Except ε α) :=
  fun a b =>
    match a, b with
    | .ok x, .ok y => if h : x = y then isTrue (by rw [h]) else isFalse (fun e => h (by cases e; rfl))
    | .error x, .error y =>
      if h : x = y then isTrue (by rw [h]) else isFalse (fun e => h (by cases e; rfl))
    | .ok _, .error _ => isFalse (fun e => by cases e)
    | .error _, .ok _ => isFalse (fun e => by cases e)

/-- The struct `session.Error`. -/
structure Error where
  msg : String
  deriving DecidableEq, Repr

/-- Values of the Go interface `error` that the program can see. -/
inductive GoError where
  | session (e : Error)
  | ioErrClosedPipe
  | osErrClosed
  | syscallErrno (errno : Nat)
  deriving DecidableEq, Repr

def ErrUserNotFound : GoError := .session ⟨"user not found"⟩
def ErrPermissionDenied : GoError := .session ⟨"permission denied"⟩
def ErrSessionNotFound : GoError := .session ⟨"session not found"⟩

/-! ## Go maps as association lists -/

/-- The lookup `m[k]` with the comma-ok result as an option. -/
def mapGet {α : Type} (m : List (String × α)) (k : String) : Option α :=
  match m with
  | [] => none
  | (k', v) :: rest => if k' = k then some v else mapGet rest k

/-- The builtin `delete(m, k)`. -/
def mapDelete {α : Type} (m : List (String × α)) (k : String) : List (String × α) :=
  match m with
  | [] => []
  | (k', v) :: rest => if k' = k then mapDelete rest k else (k', v) :: mapDelete rest k

/-- The assignment `m[k] = v`: an existing entry for `k` is replaced. -/
def mapSet {α : Type} (m : List (String × α)) (k : String) (v : α) : List (String × α) :=
  mapDelete m k ++ [(k, v)]

/-! ## Buffered channels of byte chunks -/

/-- A buffered `chan []byte`: pending chunks (oldest first), capacity, closed flag. -/
structure Chan where
  buf : List Bytes
  cap : Nat
  closed : Bool
  deriving DecidableEq, Repr

/-- The channel store: a channel value is an index into it; an index outside the
store is the nil channel. -/
abbrev ChanStore := List Chan

/-- The call `make(chan []byte, cap)`: the new store and the new channel. -/
def makeChan (h : ChanStore) (cap : Nat) : ChanStore × Nat :=
  (h ++ [{ buf := [], cap := cap, closed := false }], h.length)

/-- The builtin `close(ch)`. -/
def closeChan (h : ChanStore) (r : Nat) : Except GoPanic ChanStore :=
  match h[r]? with
  | none => .error .closeOfNilChannel
  | some c =>
    if c.closed then .error .closeOfClosedChannel
    else .ok (h.set r { c with closed := true })

/-- The statement `select { case ch <- d: default: }`: a send that never blocks.
On a closed channel it panics; on a full (or nil) channel the default branch runs. -/
def trySend (h : ChanStore) (r : Nat) (d : Bytes) : Except GoPanic ChanStore :=
  match h[r]? with
  | none => .ok h
  | some c =>
    if c.closed then .error .sendOnClosedChannel
    else if c.buf.length < c.cap then .ok (h.set r { c with buf := c.buf ++ [d] })
    else .ok h

/-- The receive `data, ok := <-ch` when it does not block: the oldest pending chunk
with `ok = true`, or `ok = false` on a closed and drained channel. `none` when the
receive would block (open and empty, or nil channel). -/
def recvChan (h : ChanStore) (r : Nat) : Option (ChanStore × Bytes × Bool) :=
  match h[r]? with
  | none => none
  | some c =>
    match c.buf with
    | d :: rest => some (h.set r { c with buf := rest }, d, true)
    | [] => if c.closed then some (h, [], false) else none

/-! ## Package `session` -/

/-- The string type `Role`. -/
abbrev Role := String

def RoleOwner : Role := "owner"
def RoleInteractive : Role := "interactive"
def RoleReadOnly : Role := "readonly"

/-- A connected client. `WriteChan` is a reference into the channel store and
`Connected` a time stamp. -/
structure User where
  ID : String
  Role : Role
  WriteChan : Nat
  Connected : Nat
  deriving DecidableEq, Repr

/-- The interface `PTYHandler` over a handler state `σ`: every method returns the
handler's next state with its Go results; an implementation whose method may never
return implements it on the states where it returns. `Read` is used only by the relay
loop and is not part of the embedding. -/
class PTYHandler (σ : Type) where
  Write : σ → Bytes → σ × Nat × Option GoError
  Close : σ → σ × Option GoError
  Resize : σ → Nat → Nat → σ × Option GoError

/-- A shared terminal session. `PTY = none` is the nil interface value. `chans` is
the store of the channels made by `AddUser`; a removed user's channel stays in it,
as the connection's writer goroutine still holds it. -/
structure Session (σ : Type) where
  ID : String
  Owner : String
  CreatedAt : Nat
  Users : List (String × User)
  PTY : Option σ
  chans : ChanStore
  deriving DecidableEq, Repr

/-- A serializable user representation. -/
structure UserInfo where
  ID : String
  Role : String
  deriving DecidableEq, Repr

/-- The session value built by `CreateSession`. -/
def newSession {σ : Type} (sessionID ownerID : String) (now : Nat) (ptyHandler : Option σ) :
    Session σ :=
  { ID := sessionID, Owner := ownerID, CreatedAt := now, Users := [], PTY := ptyHandler,
    chans := [] }

/-- AddUser adds a user to the session. `userID` is the value of `uuid.New().String()`
and `now` of `time.Now()`. Returns the session, the user and its id. -/
def Session.AddUser {σ : Type} (s : Session σ) (userID : String) (now : Nat) (role : Role) :
    Session σ × User × String :=
  let mk := makeChan s.chans 256
  let user : User := { ID := userID, Role := role, WriteChan := mk.2, Connected := now }
  ({ s with Users := mapSet s.Users userID user, chans := mk.1 }, user, userID)

/-- RemoveUser removes a user from the session. -/
def Session.RemoveUser {σ : Type} (s : Session σ) (userID : String) :
    Except GoPanic (Session σ) :=
  match mapGet s.Users userID with
  | some user =>
    match closeChan s.chans user.WriteChan with
    | .error p => .error p
    | .ok h => .ok { s with Users := mapDelete s.Users userID, chans := h }
  | none => .ok s

/-- The loop of `Broadcast` over the users. -/
def broadcastLoop (users : List (String × User)) (data : Bytes) (h : ChanStore) :
    Except GoPanic ChanStore :=
  match users with
  | [] => .ok h
  | (_, user) :: rest =>
    match trySend h user.WriteChan data with
    | .error p => .error p
    | .ok h' => broadcastLoop rest data h'

/-- Broadcast sends data to all connected users. -/
def Session.Broadcast {σ : Type} (s : Session σ) (data : Bytes) : Except GoPanic (Session σ) :=
  match broadcastLoop s.Users data s.chans with
  | .error p => .error p
  | .ok h => .ok { s with chans := h }

/-- Write sends input to the PTY (with role check). Returns the session and the Go
error result. -/
def Session.Write {σ : Type} [PTYHandler σ] (s : Session σ) (userID : String) (data : Bytes) :
    Except GoPanic (Session σ × Option GoError) :=
  match mapGet s.Users userID with
  | none => .ok (s, some ErrUserNotFound)
  | some user =>
    if user.Role = RoleReadOnly then .ok (s, some ErrPermissionDenied)
    else
      match s.PTY with
      | none => .error .nilPointerDereference
      | some p =>
        let r := PTYHandler.Write p data
        .ok ({ s with PTY := some r.1 }, r.2.2)

/-- GetUsers returns a list of all connected users. -/
def Session.GetUsers {σ : Type} (s : Session σ) : List UserInfo :=
  s.Users.map (fun e => { ID := e.2.ID, Role := e.2.Role })

/-- The first loop of `CloseAll`: close every user's channel. -/
def closeLoop (users : List (String × User)) (h : ChanStore) : Except GoPanic ChanStore :=
  match users with
  | [] => .ok h
  | (_, user) :: rest =>
    match closeChan h user.WriteChan with
    | .error p => .error p
    | .ok h' => closeLoop rest h'

/-- CloseAll closes all user connections and the PTY. -/
def Session.CloseAll {σ : Type} [PTYHandler σ] (s : Session σ) : Except GoPanic (Session σ) :=
  match closeLoop s.Users s.chans with
  | .error p => .error p
  | .ok h =>
    .ok { s with
      Users := []
      chans := h
      PTY := match s.PTY with
        | none => none
        | some p => some (PTYHandler.Close p).1 }

/-- Manager handles all active sessions. `sessions` maps a session id to a
`*Session`, a reference into `heap`, the store of the sessions created so far. -/
structure Manager (σ : Type) where
  sessions : List (String × Nat)
  heap : List (Session σ)
  deriving DecidableEq, Repr

/-- NewManager creates a new session manager. -/
def NewManager {σ : Type} : Manager σ := { sessions := [], heap := [] }

/-- CreateSession creates a new terminal session. `sessionID` is the value of
`uuid.New().String()[:8]`, `ownerID` of `uuid.New().String()`. Returns the manager
and the new `*Session`. -/
def Manager.CreateSession {σ : Type} (m : Manager σ) (sessionID ownerID : String) (now : Nat)
    (ptyHandler : Option σ) : Manager σ × Nat :=
  ({ sessions := mapSet m.sessions sessionID m.heap.length,
     heap := m.heap ++ [newSession sessionID ownerID now ptyHandler] }, m.heap.length)

/-- GetSession retrieves a session by ID. -/
def Manager.GetSession {σ : Type} (m : Manager σ) (id : String) : Option Nat :=
  mapGet m.sessions id

/-- DeleteSession removes a session. -/
def Manager.DeleteSession {σ : Type} [PTYHandler σ] (m : Manager σ) (id : String) :
    Except GoPanic (Manager σ) :=
  match mapGet m.sessions id with
  | some ref =>
    match m.heap[ref]? with
    | none => .error .nilPointerDereference
    | some session =>
      match session.CloseAll with
      | .error p => .error p
      | .ok session' =>
        .ok { sessions := mapDelete m.sessions id, heap := m.heap.set ref session' }
  | none => .ok m

/-! ## Runs of session operations -/

/-- One atomic operation on a session: a method of `Session`, or the receive
`<-user.WriteChan` of a connection's writer goroutine (`readFromPTY`). -/
inductive SessionOp where
  | addUser (userID : String) (now : Nat) (role : Role)
  | removeUser (userID : String)
  | broadcast (data : Bytes)
  | write (userID : String) (data : Bytes)
  | getUsers
  | closeAll
  | receive (ch : Nat)
  deriving DecidableEq, Repr

/-- The session after one operation. A receive that would block changes nothing. -/
def Session.step {σ : Type} [PTYHandler σ] (s : Session σ) (op : SessionOp) :
    Except GoPanic (Session σ) :=
  match op with
  | .addUser userID now role => .ok (s.AddUser userID now role).1
  | .removeUser userID => s.RemoveUser userID
  | .broadcast data => s.Broadcast data
  | .write userID data =>
    match s.Write userID data with
    | .error p => .error p
    | .ok r => .ok r.1
  | .getUsers => .ok s
  | .closeAll => s.CloseAll
  | .receive ch =>
    match recvChan s.chans ch with
    | none => .ok s
    | some r => .ok { s with chans := r.1 }

/-- The session after a sequence of operations, stopping at the first panic. -/
def Session.run {σ : Type} [PTYHandler σ] (s : Session σ) (ops : List SessionOp) :
    Except GoPanic (Session σ) :=
  match ops with
  | [] => .ok s
  | op :: rest =>
    match s.step op with
    | .error p => .error p
    | .ok s' => s'.run rest

/-- Sequential broadcasts of the chunks `ds`, oldest first, as issued by the relay
loop `PTYReader` for successive reads. -/
def Session.BroadcastAll {σ : Type} (s : Session σ) (ds : List Bytes) :
    Except GoPanic (Session σ) :=
  match ds with
  | [] => .ok s
  | d :: rest =>
    match s.Broadcast d with
    | .error p => .error p
    | .ok s' => s'.BroadcastAll rest

/-! ## Package `pty` -/

/-- The pseudo-terminal master `*os.File` as the program observes it: the bytes the
descriptor has accepted, the window size set by ioctl, the number of `Close` calls
made on it, whether it is closed, and the errno (if any) with which the kernel
answers a write or ioctl on the open descriptor. -/
structure File where
  written : Bytes
  winsize : Nat × Nat
  closeCalls : Nat
  closed : Bool
  fault : Option Nat
  deriving DecidableEq, Repr

/-- The method `(*os.File).Write`. -/
def File.Write (f : File) (p : Bytes) : File × Nat × Option GoError :=
  if f.closed then (f, 0, some .osErrClosed)
  else
    match f.fault with
    | some errno => (f, 0, some (.syscallErrno errno))
    | none => ({ f with written := f.written ++ p }, p.length, none)

/-- The method `(*os.File).Close`. -/
def File.Close (f : File) : File × Option GoError :=
  if f.closed then ({ f with closeCalls := f.closeCalls + 1 }, some .osErrClosed)
  else ({ f with closeCalls := f.closeCalls + 1, closed := true }, none)

/-- The call `pty.Setsize(f, &pty.Winsize{Rows: rows, Cols: cols})`. -/
def File.Setsize (f : File) (rows cols : Nat) : File × Option GoError :=
  if f.closed then (f, some .osErrClosed)
  else
    match f.fault with
    | some errno => (f, some (.syscallErrno errno))
    | none => ({ f with winsize := (rows, cols) }, none)

/-- The kernel's view of the child shell: still running (`exits` tells whether it
terminates once it is signalled and its terminal is hung up), exited and not yet
collected, or no longer in the process table (already collected). -/
inductive Child where
  | alive (exits : Bool)
  | zombie
  | gone
  deriving DecidableEq, Repr

/-- The `*exec.Cmd` of the child shell: `Process` is the pid once started (`none` is
the nil pointer), `waitCalls` counts the calls of `Wait`, `reaped` says that a `Wait`
has collected the child (`ProcessState` is set). -/
structure Cmd where
  Process : Option Nat
  waitCalls : Nat
  reaped : Bool
  deriving DecidableEq, Repr

/-- The method `(*exec.Cmd).Wait` against the kernel's view of the child: the command
and the child once the call has returned, `none` when it never returns. It returns at
once without a process handle, after an earlier successful `Wait`, and when the child is
gone (the wait fails, nothing is collected); it collects a child that has exited; it
blocks while the child runs, forever when the child never exits. Its error result,
which `Close` discards, is not part of the model. -/
def Cmd.Wait (c : Cmd) (child : Child) : Option (Cmd × Child) :=
  match c.Process with
  | none => some ({ c with waitCalls := c.waitCalls + 1 }, child)
  | some _ =>
    if c.reaped then some ({ c with waitCalls := c.waitCalls + 1 }, child)
    else
      match child with
      | .gone => some ({ c with waitCalls := c.waitCalls + 1 }, .gone)
      | .zombie => some ({ c with waitCalls := c.waitCalls + 1, reaped := true }, .gone)
      | .alive true => some ({ c with waitCalls := c.waitCalls + 1, reaped := true }, .gone)
      | .alive false => none

/-- The signal number of `syscall.SIGTERM`. -/
def SIGTERM : Nat := 15

/-- Terminal manages a pseudo-terminal. Besides the Go fields it carries the
kernel-side facts `Close` touches: `child`, the state of the child process, `pgid`, its
process group, and `kills`, the `syscall.Kill` calls made so far as (pid argument,
signal). -/
structure Terminal where
  ptmx : File
  cmd : Cmd
  closed : Bool
  child : Child
  pgid : Nat
  kills : List (Int × Nat)
  deriving DecidableEq, Repr

/-- The terminal returned by `New` when `pty.Start` succeeds with a child of the
given pid, which leads its own process group. -/
def New (pid : Nat) (child : Child) : Terminal :=
  { ptmx := { written := [], winsize := (0, 0), closeCalls := 0, closed := false, fault := none }
    cmd := { Process := some pid, waitCalls := 0, reaped := false }
    closed := false
    child := child
    pgid := pid
    kills := [] }

/-- The call `syscall.Getpgid` on the child's pid: it fails (`none`) when the child is
no longer in the process table. -/
def Terminal.Getpgid (t : Terminal) : Option Nat :=
  match t.child with
  | .gone => none
  | _ => some t.pgid

/-- Write writes data to the PTY. -/
def Terminal.Write (t : Terminal) (p : Bytes) : Terminal × Nat × Option GoError :=
  if t.closed then (t, 0, some .ioErrClosedPipe)
  else
    let r := t.ptmx.Write p
    ({ t with ptmx := r.1 }, r.2)

/-- Resize changes the PTY size. -/
def Terminal.Resize (t : Terminal) (rows cols : Nat) : Terminal × Option GoError :=
  if t.closed then (t, some .ioErrClosedPipe)
  else
    let r := t.ptmx.Setsize rows cols
    ({ t with ptmx := r.1 }, r.2)

/-- The signalling step of `Close`: SIGTERM to the process group, when the process
handle is set and `Getpgid` succeeds. -/
def Terminal.signalGroup (t : Terminal) : List (Int × Nat) :=
  match t.cmd.Process with
  | none => t.kills
  | some _ =>
    match t.Getpgid with
    | none => t.kills
    | some pgid => t.kills ++ [(-(pgid : Int), SIGTERM)]

/-- Close terminates the PTY and the shell process. The result is `none` when the call
never returns, which is when its `Wait` never returns. -/
def Terminal.Close (t : Terminal) : Option (Terminal × Option GoError) :=
  if t.closed then some (t, none)
  else
    match t.cmd.Wait t.child with
    | none => none
    | some w =>
      some ({ t with
          closed := true
          kills := t.signalGroup
          ptmx := t.ptmx.Close.1
          cmd := w.1
          child := w.2 }, none)

/-- The terminal after `n` successive calls of `Close`, with the results of the
calls, first call first; `none` when one of the calls never returns. -/
def Terminal.CloseN (t : Terminal) (n : Nat) : Option (Terminal × List (Option GoError)) :=
  match n with
  | 0 => some (t, [])
  | n + 1 =>
    match t.Close with
    | none => none
    | some r =>
      match r.1.CloseN n with
      | none => none
      | some rest => some (rest.1, r.2 :: rest.2)

/-- Whether a call of `Close` on the terminal returns. -/
def Terminal.closeReturns (t : Terminal) : Bool :=
  t.closed || (t.cmd.Wait t.child).isSome

/-- The result of `Close` on a terminal on which the call returns. -/
def Terminal.closeResult (t : Terminal) (h : t.closeReturns = true) :
    Terminal × Option GoError :=
  t.Close.get (by
    unfold Terminal.closeReturns at h
    unfold Terminal.Close
    cases hc : t.closed with
    | true => simp
    | false =>
      rw [hc] at h
      cases hw : t.cmd.Wait t.child with
      | none => rw [hw] at h; cases h
      | some w => simp)

/-- The terminals on which `Close` returns. A session has a state after a method of
its handler only when the method returns, so these are the terminals that implement
the interface `PTYHandler` of the embedding. -/
abbrev ClosableTerminal := { t : Terminal // t.closeReturns = true }

instance : PTYHandler ClosableTerminal where
  Write := fun t p =>
    (⟨(t.val.Write p).1, by
        have h := t.property
        unfold Terminal.closeReturns Terminal.Write at *
        split <;> exact h⟩, (t.val.Write p).2)
  Close := fun t =>
    (⟨(t.val.closeResult t.property).1, by
        have hs : t.val.Close = some (t.val.closeResult t.property) :=
          (Option.some_get _).symm
        generalize t.val.closeResult t.property = r at hs ⊢
        have hcl : r.1.closed = true := by
          unfold Terminal.Close at hs
          split at hs
          · next hc => cases hs; exact hc
          · split at hs
            · cases hs
            · cases hs; rfl
        simp [Terminal.closeReturns, hcl]⟩, (t.val.closeResult t.property).2)
  Resize := fun t rows cols =>
    (⟨(t.val.Resize rows cols).1, by
        have h := t.property
        unfold Terminal.closeReturns Terminal.Resize at *
        split <;> exact h⟩, (t.val.Resize rows cols).2)

/-! ## Package `websocket` -/

/-- The role given to a joining connection in `HandleConnection`, from the join
message's `Token` and `Role` and the session's `Owner`. -/
def determineRole (token owner requestedRole : String) : Role :=
  if token = owner then RoleOwner
  else if requestedRole = "interactive" then RoleInteractive
  else RoleReadOnly

/-- A value that `json.Unmarshal` stores in an `interface{}`; `null` is the nil
interface, a number is a `float64` (a finite one, hence a rational). -/
inductive JSONValue where
  | null
  | bool (b : Bool)
  | number (x : ℚ)
  | string (s : String)
  | array (xs : List JSONValue)
  | object (fields : List (String × JSONValue))

/-- The struct `Message`; `Typ` is its field `Type`. -/
structure Message where
  Typ : String
  Data : JSONValue

/-- The conversion `uint16(x)` of a `float64` as compiled: truncation toward zero to a
32-bit integer, of which the low 16 bits are kept; a value outside the 32-bit range
gives 0. -/
def float64ToUint16 (x : ℚ) : Nat :=
  let n := x.num.tdiv (x.den : Int)
  if -2147483648 ≤ n ∧ n < 2147483648 then (n % 65536).toNat else 0

/-- The type assertion `v.(float64)` on the result of a map index: it panics unless
the key is present with a number. -/
def assertFloat64 (v : Option JSONValue) : Except GoPanic ℚ :=
  match v with
  | some (.number x) => .ok x
  | _ => .error .interfaceConversion

/-- The function `handleControlMessage`. -/
def handleControlMessage {σ : Type} [PTYHandler σ] (sess : Session σ) (_userID : String)
    (msg : Message) : Except GoPanic (Session σ) :=
  if msg.Typ = "resize" then
    match msg.Data with
    | .object data =>
      match assertFloat64 (mapGet data "rows") with
      | .error p => .error p
      | .ok rows =>
        match assertFloat64 (mapGet data "cols") with
        | .error p => .error p
        | .ok cols =>
          match sess.PTY with
          | none => .error .nilPointerDereference
          | some p =>
            .ok { sess with
              PTY := some (PTYHandler.Resize p (float64ToUint16 rows) (float64ToUint16 cols)).1 }
    | _ => .ok sess
  else .ok sess

/-- A message returned by `conn.ReadMessage`: a binary frame, or a text frame with
the result of `json.Unmarshal` into a `Message` (`none` when it fails). -/
inductive Frame where
  | binary (data : Bytes)
  | text (msg : Option Message)

/-- The loop of `readFromWebSocket` over the frames read until `ReadMessage` fails.
A panic leaves the loop; a normal return gives the session. -/
def readFromWebSocket {σ : Type} [PTYHandler σ] (sess : Session σ) (userID : String)
    (frames : List Frame) : Except GoPanic (Session σ) :=
  match frames with
  | [] => .ok sess
  | .binary data :: rest =>
    match sess.Write userID data with
    | .error p => .error p
    | .ok r => readFromWebSocket r.1 userID rest
  | .text none :: rest => readFromWebSocket sess userID rest
  | .text (some msg) :: rest =>
    match handleControlMessage sess userID msg with
    | .error p => .error p
    | .ok sess' => readFromWebSocket sess' userID rest

/-! ## Well-formed sessions -/

/-- A registry entry is sound when the user is keyed by its own id and its channel
is an open channel of capacity 256 holding at most 256 chunks. -/
def userOk (h : ChanStore) (e : String × User) : Bool :=
  decide (e.2.ID = e.1) &&
    match h[e.2.WriteChan]? with
    | none => false
    | some c => !c.closed && decide (c.cap = 256) && decide (c.buf.length ≤ 256)

/-- The registry invariant of a session: the map has one entry per key, no two
users share a channel, and every entry is sound. -/
def SessionWF {σ : Type} (s : Session σ) : Prop :=
  (s.Users.map (fun e => e.1)).Nodup ∧
  (s.Users.map (fun e => e.2.WriteChan)).Nodup ∧
  ∀ e ∈ s.Users, userOk s.chans e = true

instance {σ : Type} (s : Session σ) : Decidable (SessionWF s) := by
  unfold SessionWF; infer_instance

/-- The channel after a `close`. -/
def Chan.closeIt (c : Chan) : Chan := { c with closed := true }

/-- The channel after a non-blocking send of `d`: appended when there is room. -/
def Chan.push (c : Chan) (d : Bytes) : Chan :=
  if c.buf.length < c.cap then { c with buf := c.buf ++ [d] } else c

/-! ## Sample states -/

/-- A freshly started terminal whose child, of pid 4242, runs and exits once it is
signalled and hung up. -/
def demoShell : Terminal := New 4242 (.alive true)

/-- The terminal `demoShell` as a handler of a session. -/
def demoTerminal : ClosableTerminal := ⟨demoShell, by decide⟩

/-- The bytes of `"ls\n"`. -/
def lsBytes : Bytes := [108, 115, 10]

/-- The bytes of `"rm -rf /\n"`. -/
def rmBytes : Bytes := [114, 109, 32, 45, 114, 102, 32, 47, 10]

/-- A manager with one session, as left by `CreateSession` on a new manager. -/
def demoManager : Manager ClosableTerminal :=
  (NewManager.CreateSession "1a2b3c4d" "owner-secret" 0 (some demoTerminal)).1

/-- The session of `demoManager`. -/
def demoSession : Session ClosableTerminal := newSession "1a2b3c4d" "owner-secret" 0 (some demoTerminal)

/-- The sample session after an Owner `u-owner` and a ReadOnly user `u-ro` joined. -/
def demoSession2 : Session ClosableTerminal :=
  ((demoSession.AddUser "u-owner" 1 RoleOwner).1.AddUser "u-ro" 2 RoleReadOnly).1

/-- A channel of capacity 256 holding `n` pending chunks. -/
def demoChan (n : Nat) : Chan := { buf := List.replicate n lsBytes, cap := 256, closed := false }

/-- The sample session when the queue of `u-owner` is full and that of `u-ro` is
empty. -/
def demoSessionFull : Session ClosableTerminal :=
  { demoSession2 with chans := [demoChan 256, demoChan 0] }

/-- A session with three users whose queues hold 0, 1 and 255 chunks. -/
def demoSession3 : Session ClosableTerminal :=
  { (demoSession2.AddUser "u-int" 3 RoleInteractive).1 with
      chans := [demoChan 0, demoChan 1, demoChan 255] }

/-- A run of operations on a new session: joins, output, input, a disconnect, a
drained chunk, teardown, and a disconnect after teardown. -/
def demoOps : List SessionOp :=
  [.addUser "u-owner" 1 RoleOwner, .addUser "u-ro" 2 RoleReadOnly, .broadcast lsBytes,
   .write "u-owner" lsBytes, .write "u-ro" rmBytes, .getUsers, .receive 0,
   .removeUser "u-ro", .broadcast rmBytes, .addUser "u-int" 3 RoleInteractive,
   .closeAll, .removeUser "u-owner", .closeAll]

/-- The session that the run `demoOps` ends in. -/
def demoFinal : Session ClosableTerminal :=
  { ID := "1a2b3c4d", Owner := "owner-secret", CreatedAt := 0, Users := []
    PTY := some
      ⟨{ ptmx := { written := lsBytes, winsize := (0, 0), closeCalls := 1, closed := true,
                   fault := none }
         cmd := { Process := some 4242, waitCalls := 1, reaped := true }
         closed := true
         child := .gone
         pgid := 4242
         kills := [(-4242, SIGTERM)] }, by decide⟩
    chans := [{ buf := [rmBytes], cap := 256, closed := true },
              { buf := [lsBytes], cap := 256, closed := true },
              { buf := [], cap := 256, closed := true }] }

/-- The sample manager after the users of `demoSession2` joined its session. -/
def demoManager2 : Manager ClosableTerminal :=
  { demoManager with heap := [demoSession2] }

/-- A freshly started terminal whose child ignores the signal and the hangup and never
exits. -/
def demoShellStuck : Terminal := New 4242 (.alive false)

/-- A started terminal whose child is already gone from the process table. -/
def demoShellGone : Terminal := New 4242 .gone

/-- A session created without a terminal (`CreateSession(nil)`) that an Owner has
joined. -/
def demoSessionNoPTY : Session ClosableTerminal :=
  ((newSession "1a2b3c4d" "owner-secret" 0 none).AddUser "u-owner" 1 RoleOwner).1

/-- The control message `{"type":"resize","data":{}}`: a resize without rows and cols. -/
def resizeEmpty : Message := { Typ := "resize", Data := .object [] }

/-- The control message `{"type":"resize","data":{"rows":"24","cols":80}}`: rows is a
string. -/
def resizeRowsString : Message :=
  { Typ := "resize", Data := .object [("rows", .string "24"), ("cols", .number 80)] }

/-- The control message `{"type":"resize","data":[24,80]}`: the data is not an object. -/
def resizeArray : Message := { Typ := "resize", Data := .array [.number 24, .number 80] }

/-! ## Lemmas on maps -/

theorem mapGet_mapDelete_self {α : Type} (m : List (String × α)) (k : String) :
    mapGet (mapDelete m k) k = none := by
  induction m with
  | nil => rfl
  | cons e rest ih =>
    obtain ⟨k', v⟩ := e
    by_cases hk : k' = k
    · simp [mapDelete, hk, ih]
    · simp [mapDelete, mapGet, hk, ih]

theorem mapGet_mapDelete_ne {α : Type} (m : List (String × α)) (k k' : String) (h : k' ≠ k) :
    mapGet (mapDelete m k) k' = mapGet m k' := by
  induction m with
  | nil => rfl
  | cons e rest ih =>
    obtain ⟨k₀, v⟩ := e
    by_cases hk : k₀ = k
    · subst hk
      have hk' : ¬ k₀ = k' := fun e => h e.symm
      simp [mapDelete, mapGet, hk', ih]
    · by_cases hk' : k₀ = k'
      · subst hk'
        simp [mapDelete, mapGet, hk]
      · simp [mapDelete, mapGet, hk, hk', ih]

theorem mem_mapDelete {α : Type} (m : List (String × α)) (k : String) (e : String × α) :
    e ∈ mapDelete m k ↔ e ∈ m ∧ e.1 ≠ k := by
  induction m with
  | nil => simp [mapDelete]
  | cons e₀ rest ih =>
    obtain ⟨k₀, v⟩ := e₀
    by_cases hk : k₀ = k
    · simp only [mapDelete, hk, if_true, ih, List.mem_cons]
      constructor
      · rintro ⟨h1, h2⟩
        exact ⟨Or.inr h1, h2⟩
      · rintro ⟨h1 | h1, h2⟩
        · exact absurd (by rw [h1]) h2
        · exact ⟨h1, h2⟩
    · simp only [mapDelete, hk, if_false, List.mem_cons, ih]
      constructor
      · rintro (h1 | ⟨h1, h2⟩)
        · exact ⟨Or.inl h1, by rw [h1]; exact hk⟩
        · exact ⟨Or.inr h1, h2⟩
      · rintro ⟨h1 | h1, h2⟩
        · exact Or.inl h1
        · exact Or.inr ⟨h1, h2⟩

theorem mapDelete_sublist {α : Type} (m : List (String × α)) (k : String) :
    (mapDelete m k).Sublist m := by
  induction m with
  | nil => exact List.Sublist.slnil
  | cons e rest ih =>
    obtain ⟨k₀, v⟩ := e
    by_cases hk : k₀ = k
    · simp only [mapDelete, hk, if_true]
      exact List.Sublist.cons _ ih
    · simp only [mapDelete, hk, if_false]
      exact List.Sublist.cons₂ _ ih

theorem mapDelete_of_mapGet_none {α : Type} (m : List (String × α)) (k : String)
    (h : mapGet m k = none) : mapDelete m k = m := by
  induction m with
  | nil => rfl
  | cons e rest ih =>
    obtain ⟨k₀, v⟩ := e
    by_cases hk : k₀ = k
    · simp [mapGet, hk] at h
    · simp only [mapGet, hk, if_false] at h
      simp [mapDelete, hk, ih h]

theorem mem_of_mapGet {α : Type} (m : List (String × α)) (k : String) (v : α)
    (h : mapGet m k = some v) : (k, v) ∈ m := by
  induction m with
  | nil => simp [mapGet] at h
  | cons e rest ih =>
    obtain ⟨k₀, v₀⟩ := e
    by_cases hk : k₀ = k
    · simp only [mapGet, hk, if_true, Option.some.injEq] at h
      simp [hk, h]
    · simp only [mapGet, hk, if_false] at h
      exact List.mem_cons_of_mem _ (ih h)

theorem mapGet_of_mem {α : Type} (m : List (String × α)) (k : String) (v : α)
    (hnd : (m.map (fun e => e.1)).Nodup) (h : (k, v) ∈ m) : mapGet m k = some v := by
  induction m with
  | nil => simp at h
  | cons e rest ih =>
    obtain ⟨k₀, v₀⟩ := e
    simp only [List.map_cons, List.nodup_cons, List.mem_map, not_exists, not_and] at hnd
    rcases List.mem_cons.mp h with h1 | h1
    · simp only [Prod.mk.injEq] at h1
      simp [mapGet, h1.1, h1.2]
    · have hk : ¬ k₀ = k := fun e => hnd.1 (k, v) h1 e.symm
      simp only [mapGet, hk, if_false]
      exact ih hnd.2 h1

/-! ## Lemmas on the channel store -/

theorem userOk_iff (h : ChanStore) (e : String × User) :
    userOk h e = true ↔
      e.2.ID = e.1 ∧ ∃ c, h[e.2.WriteChan]? = some c ∧ c.closed = false ∧ c.cap = 256 ∧
        c.buf.length ≤ 256 := by
  unfold userOk
  cases hc : h[e.2.WriteChan]? with
  | none => simp
  | some c => simp [and_assoc]

theorem closeChan_open (h : ChanStore) (r : Nat) (c : Chan) (hc : h[r]? = some c)
    (ho : c.closed = false) : closeChan h r = .ok (h.set r c.closeIt) := by
  simp [closeChan, hc, ho, Chan.closeIt]

theorem set_same_value (h : ChanStore) (r : Nat) (c : Chan) (hc : h[r]? = some c) :
    h.set r c = h := by
  induction h generalizing r with
  | nil => rfl
  | cons a rest ih =>
    cases r with
    | zero =>
      simp only [List.getElem?_cons_zero, Option.some.injEq] at hc
      simp [hc]
    | succ n =>
      simp only [List.getElem?_cons_succ] at hc
      simp [ih n hc]

theorem trySend_open (h : ChanStore) (r : Nat) (d : Bytes) (c : Chan) (hc : h[r]? = some c)
    (ho : c.closed = false) : trySend h r d = .ok (h.set r (c.push d)) := by
  by_cases hroom : c.buf.length < c.cap
  · simp [trySend, hc, ho, hroom, Chan.push]
  · simp [trySend, hc, ho, hroom, Chan.push, set_same_value h r c hc]

theorem getElem?_set_other (h : ChanStore) (r r' : Nat) (c : Chan) (hne : r' ≠ r) :
    (h.set r c)[r']? = h[r']? :=
  List.getElem?_set_ne (Ne.symm hne)

theorem getElem?_set_same (h : ChanStore) (r : Nat) (c c' : Chan) (hc : h[r]? = some c) :
    (h.set r c')[r]? = some c' := by
  have hlt : r < h.length := (List.getElem?_eq_some_iff.mp hc).1
  exact List.getElem?_set_self hlt

theorem closeLoop_spec (users : List (String × User)) (h : ChanStore)
    (hnd : (users.map (fun e => e.2.WriteChan)).Nodup)
    (hok : ∀ e ∈ users, ∃ c, h[e.2.WriteChan]? = some c ∧ c.closed = false) :
    ∃ h', closeLoop users h = .ok h' ∧
      (∀ e ∈ users, ∀ c, h[e.2.WriteChan]? = some c → h'[e.2.WriteChan]? = some c.closeIt) ∧
      (∀ r, r ∉ users.map (fun e => e.2.WriteChan) → h'[r]? = h[r]?) := by
  induction users generalizing h with
  | nil => exact ⟨h, rfl, by simp, fun _ _ => rfl⟩
  | cons e rest ih =>
    obtain ⟨k, u⟩ := e
    simp only [List.map_cons, List.nodup_cons, List.mem_map, not_exists, not_and] at hnd
    obtain ⟨c, hc, ho⟩ := hok (k, u) (List.mem_cons_self _ _)
    have hne : ∀ e' ∈ rest, e'.2.WriteChan ≠ u.WriteChan := fun e' he' => hnd.1 e' he'
    have hok' : ∀ e' ∈ rest, ∃ c', (h.set u.WriteChan c.closeIt)[e'.2.WriteChan]? = some c' ∧
        c'.closed = false := by
      intro e' he'
      obtain ⟨c', hc', ho'⟩ := hok e' (List.mem_cons_of_mem _ he')
      exact ⟨c', by rw [getElem?_set_other _ _ _ _ (hne e' he')]; exact hc', ho'⟩
    obtain ⟨h', hrun, hin, hout⟩ := ih (h.set u.WriteChan c.closeIt) hnd.2 hok'
    refine ⟨h', ?_, ?_, ?_⟩
    · simp only [closeLoop, closeChan_open h u.WriteChan c hc ho]
      exact hrun
    · intro e' he' c' hc'
      rcases List.mem_cons.mp he' with h1 | h1
      · subst h1
        have hcc : c' = c := by
          simp only at hc'
          rw [hc] at hc'
          exact (Option.some.inj hc').symm
        subst hcc
        have hnot : u.WriteChan ∉ rest.map (fun e => e.2.WriteChan) := by
          simp only [List.mem_map, not_exists, not_and]
          exact fun e' he' => hnd.1 e' he'
        simp only
        rw [hout _ hnot]
        exact getElem?_set_same h _ _ _ hc
      · apply hin e' h1
        rw [getElem?_set_other _ _ _ _ (hne e' h1)]
        exact hc'
    · intro r hr
      simp only [List.map_cons, List.mem_cons, not_or, List.mem_map, not_exists, not_and] at hr
      have hnot : r ∉ rest.map (fun e => e.2.WriteChan) := by
        simp only [List.mem_map, not_exists, not_and]
        exact hr.2
      rw [hout r hnot]
      exact getElem?_set_other _ _ _ _ hr.1

theorem broadcastLoop_spec (users : List (String × User)) (d : Bytes) (h : ChanStore)
    (hnd : (users.map (fun e => e.2.WriteChan)).Nodup)
    (hok : ∀ e ∈ users, ∃ c, h[e.2.WriteChan]? = some c ∧ c.closed = false) :
    ∃ h', broadcastLoop users d h = .ok h' ∧
      (∀ e ∈ users, ∀ c, h[e.2.WriteChan]? = some c → h'[e.2.WriteChan]? = some (c.push d)) ∧
      (∀ r, r ∉ users.map (fun e => e.2.WriteChan) → h'[r]? = h[r]?) := by
  induction users generalizing h with
  | nil => exact ⟨h, rfl, by simp, fun _ _ => rfl⟩
  | cons e rest ih =>
    obtain ⟨k, u⟩ := e
    simp only [List.map_cons, List.nodup_cons, List.mem_map, not_exists, not_and] at hnd
    obtain ⟨c, hc, ho⟩ := hok (k, u) (List.mem_cons_self _ _)
    have hne : ∀ e' ∈ rest, e'.2.WriteChan ≠ u.WriteChan := fun e' he' => hnd.1 e' he'
    have hok' : ∀ e' ∈ rest, ∃ c', (h.set u.WriteChan (c.push d))[e'.2.WriteChan]? = some c' ∧
        c'.closed = false := by
      intro e' he'
      obtain ⟨c', hc', ho'⟩ := hok e' (List.mem_cons_of_mem _ he')
      exact ⟨c', by rw [getElem?_set_other _ _ _ _ (hne e' he')]; exact hc', ho'⟩
    obtain ⟨h', hrun, hin, hout⟩ := ih (h.set u.WriteChan (c.push d)) hnd.2 hok'
    refine ⟨h', ?_, ?_, ?_⟩
    · simp only [broadcastLoop, trySend_open h u.WriteChan d c hc ho]
      exact hrun
    · intro e' he' c' hc'
      rcases List.mem_cons.mp he' with h1 | h1
      · subst h1
        have hcc : c' = c := by
          simp only at hc'
          rw [hc] at hc'
          exact (Option.some.inj hc').symm
        subst hcc
        have hnot : u.WriteChan ∉ rest.map (fun e => e.2.WriteChan) := by
          simp only [List.mem_map, not_exists, not_and]
          exact fun e' he' => hnd.1 e' he'
        simp only
        rw [hout _ hnot]
        exact getElem?_set_same h _ _ _ hc
      · apply hin e' h1
        rw [getElem?_set_other _ _ _ _ (hne e' h1)]
        exact hc'
    · intro r hr
      simp only [List.map_cons, List.mem_cons, not_or, List.mem_map, not_exists, not_and] at hr
      have hnot : r ∉ rest.map (fun e => e.2.WriteChan) := by
        simp only [List.mem_map, not_exists, not_and]
        exact hr.2
      rw [hout r hnot]
      exact getElem?_set_other _ _ _ _ hr.1

/-! ## The registry invariant is kept by every operation -/

theorem wf_entry {σ : Type} (s : Session σ) (hwf : SessionWF s) (e : String × User)
    (he : e ∈ s.Users) :
    e.2.ID = e.1 ∧ ∃ c, s.chans[e.2.WriteChan]? = some c ∧ c.closed = false ∧ c.cap = 256 ∧
      c.buf.length ≤ 256 :=
  (userOk_iff s.chans e).mp (hwf.2.2 e he)

theorem wf_open {σ : Type} (s : Session σ) (hwf : SessionWF s) :
    ∀ e ∈ s.Users, ∃ c, s.chans[e.2.WriteChan]? = some c ∧ c.closed = false := by
  intro e he
  obtain ⟨_, c, hc, ho, _⟩ := wf_entry s hwf e he
  exact ⟨c, hc, ho⟩

theorem wf_newSession {σ : Type} (sessionID ownerID : String) (now : Nat) (pty : Option σ) :
    SessionWF (newSession sessionID ownerID now pty) := by
  simp [SessionWF, newSession]

theorem wf_same_registry {σ : Type} (s s' : Session σ) (hwf : SessionWF s)
    (hu : s'.Users = s.Users) (hc : s'.chans = s.chans) : SessionWF s' := by
  unfold SessionWF at *
  rw [hu, hc]
  exact hwf

theorem wf_AddUser {σ : Type} (s : Session σ) (hwf : SessionWF s) (userID : String) (now : Nat)
    (role : Role) : SessionWF (s.AddUser userID now role).1 := by
  have hsub := mapDelete_sublist s.Users userID
  have hlt : ∀ e ∈ s.Users, e.2.WriteChan < s.chans.length := by
    intro e he
    obtain ⟨_, c, hc, _⟩ := wf_entry s hwf e he
    exact (List.getElem?_eq_some_iff.mp hc).1
  refine ⟨?_, ?_, ?_⟩
  · simp only [Session.AddUser, mapSet, List.map_append, List.map_cons, List.map_nil]
    rw [List.nodup_append]
    refine ⟨(hsub.map _).nodup hwf.1, List.nodup_singleton _, ?_⟩
    intro k hk hk'
    simp only [List.mem_singleton] at hk'
    obtain ⟨e, he, hek⟩ := List.mem_map.mp hk
    exact ((mem_mapDelete _ _ _).mp he).2 (hek.trans hk')
  · simp only [Session.AddUser, mapSet, makeChan, List.map_append, List.map_cons, List.map_nil]
    rw [List.nodup_append]
    refine ⟨(hsub.map _).nodup hwf.2.1, List.nodup_singleton _, ?_⟩
    intro r hr hr'
    simp only [List.mem_singleton] at hr'
    obtain ⟨e, he, her⟩ := List.mem_map.mp hr
    have := hlt e ((mem_mapDelete _ _ _).mp he).1
    omega
  · intro e he
    simp only [Session.AddUser, mapSet, makeChan, List.mem_append, List.mem_singleton] at he
    rw [userOk_iff]
    rcases he with he | he
    · have hmem := ((mem_mapDelete _ _ _).mp he).1
      obtain ⟨hid, c, hc, hrest⟩ := wf_entry s hwf e hmem
      refine ⟨hid, c, ?_, hrest⟩
      simp only [Session.AddUser, makeChan]
      rw [List.getElem?_append_left (hlt e hmem)]
      exact hc
    · subst he
      refine ⟨rfl, { buf := [], cap := 256, closed := false }, ?_, rfl, rfl, by simp⟩
      simp only [Session.AddUser, makeChan]
      exact List.getElem?_concat_length _ _

theorem RemoveUser_absent {σ : Type} (s : Session σ) (userID : String)
    (h : mapGet s.Users userID = none) : s.RemoveUser userID = .ok s := by
  simp [Session.RemoveUser, h]

theorem RemoveUser_present {σ : Type} (s : Session σ) (hwf : SessionWF s) (userID : String)
    (u : User) (h : mapGet s.Users userID = some u) :
    ∃ c, s.chans[u.WriteChan]? = some c ∧ c.closed = false ∧
      s.RemoveUser userID =
        .ok { s with Users := mapDelete s.Users userID, chans := s.chans.set u.WriteChan c.closeIt } ∧
      SessionWF { s with Users := mapDelete s.Users userID,
                         chans := s.chans.set u.WriteChan c.closeIt } := by
  have hmem := mem_of_mapGet _ _ _ h
  obtain ⟨_, c, hc, ho, _⟩ := wf_entry s hwf _ hmem
  refine ⟨c, hc, ho, ?_, ?_⟩
  · simp only at hc
    simp [Session.RemoveUser, h, closeChan_open s.chans u.WriteChan c hc ho]
  · have hsub := mapDelete_sublist s.Users userID
    refine ⟨(hsub.map _).nodup hwf.1, (hsub.map _).nodup hwf.2.1, ?_⟩
    intro e he
    obtain ⟨hmem', hkey⟩ := (mem_mapDelete _ _ _).mp he
    have hne : e.2.WriteChan ≠ u.WriteChan := by
      intro heq
      have := List.inj_on_of_nodup_map hwf.2.1 hmem' hmem heq
      exact hkey (by rw [this])
    obtain ⟨hid, c', hc', hrest⟩ := wf_entry s hwf e hmem'
    rw [userOk_iff]
    refine ⟨hid, c', ?_, hrest⟩
    simp only
    rw [getElem?_set_other _ _ _ _ hne]
    exact hc'

theorem push_ok (c : Chan) (d : Bytes) (ho : c.closed = false) (hcap : c.cap = 256)
    (hlen : c.buf.length ≤ 256) :
    (c.push d).closed = false ∧ (c.push d).cap = 256 ∧ (c.push d).buf.length ≤ 256 := by
  unfold Chan.push
  split
  · refine ⟨ho, hcap, ?_⟩
    simp only [List.length_append, List.length_singleton]
    omega
  · exact ⟨ho, hcap, hlen⟩

theorem Broadcast_spec {σ : Type} (s : Session σ) (hwf : SessionWF s) (d : Bytes) :
    ∃ h', s.Broadcast d = .ok { s with chans := h' } ∧
      (∀ e ∈ s.Users, ∀ c, s.chans[e.2.WriteChan]? = some c →
        h'[e.2.WriteChan]? = some (c.push d)) ∧
      (∀ r, r ∉ s.Users.map (fun e => e.2.WriteChan) → h'[r]? = s.chans[r]?) ∧
      SessionWF { s with chans := h' } := by
  obtain ⟨h', hrun, hin, hout⟩ := broadcastLoop_spec s.Users d s.chans hwf.2.1 (wf_open s hwf)
  refine ⟨h', ?_, hin, hout, hwf.1, hwf.2.1, ?_⟩
  · simp [Session.Broadcast, hrun]
  · intro e he
    obtain ⟨hid, c, hc, ho, hcap, hlen⟩ := wf_entry s hwf e he
    rw [userOk_iff]
    exact ⟨hid, c.push d, hin e he c hc, push_ok c d ho hcap hlen⟩

theorem CloseAll_spec {σ : Type} [PTYHandler σ] (s : Session σ) (hwf : SessionWF s) :
    ∃ h', s.CloseAll = .ok { s with
        Users := []
        chans := h'
        PTY := match s.PTY with
          | none => none
          | some p => some (PTYHandler.Close p).1 } ∧
      (∀ e ∈ s.Users, ∀ c, s.chans[e.2.WriteChan]? = some c →
        h'[e.2.WriteChan]? = some c.closeIt) ∧
      (∀ r, r ∉ s.Users.map (fun e => e.2.WriteChan) → h'[r]? = s.chans[r]?) := by
  obtain ⟨h', hrun, hin, hout⟩ := closeLoop_spec s.Users s.chans hwf.2.1 (wf_open s hwf)
  refine ⟨h', ?_, hin, hout⟩
  simp [Session.CloseAll, hrun]

theorem wf_empty_registry {σ : Type} (s : Session σ) (hu : s.Users = []) : SessionWF s := by
  simp [SessionWF, hu]

theorem Write_registry {σ : Type} [PTYHandler σ] (s : Session σ) (userID : String) (d : Bytes)
    (r : Session σ × Option GoError) (h : s.Write userID d = .ok r) :
    r.1.Users = s.Users ∧ r.1.chans = s.chans := by
  unfold Session.Write at h
  split at h
  · cases h; exact ⟨rfl, rfl⟩
  · split at h
    · cases h; exact ⟨rfl, rfl⟩
    · split at h
      · cases h
      · cases h; exact ⟨rfl, rfl⟩

theorem Write_panic {σ : Type} [PTYHandler σ] (s : Session σ) (userID : String) (d : Bytes)
    (p : GoPanic) (h : s.Write userID d = .error p) :
    p = .nilPointerDereference ∧ s.PTY = none := by
  unfold Session.Write at h
  split at h
  · cases h
  · split at h
    · cases h
    · split at h
      · next hp => cases h; exact ⟨rfl, hp⟩
      · cases h

theorem wf_receive {σ : Type} (s : Session σ) (hwf : SessionWF s) (ch : Nat)
    (r : ChanStore × Bytes × Bool) (h : recvChan s.chans ch = some r) :
    SessionWF { s with chans := r.1 } := by
  refine ⟨hwf.1, hwf.2.1, ?_⟩
  intro e he
  obtain ⟨hid, c, hc, ho, hcap, hlen⟩ := wf_entry s hwf e he
  rw [userOk_iff]
  refine ⟨hid, ?_⟩
  unfold recvChan at h
  cases hch : s.chans[ch]? with
  | none => simp [hch] at h
  | some c₀ =>
    simp only [hch] at h
    cases hb : c₀.buf with
    | nil =>
      simp only [hb] at h
      split at h
      · cases h
        exact ⟨c, hc, ho, hcap, hlen⟩
      · cases h
    | cons x rest =>
      simp only [hb, Option.some.injEq] at h
      subst h
      by_cases heq : e.2.WriteChan = ch
      · rw [heq] at hc
        rw [hch] at hc
        have hcc : c₀ = c := Option.some.inj hc
        subst hcc
        refine ⟨{ c₀ with buf := rest }, ?_, ho, hcap, ?_⟩
        · simp only
          rw [heq]
          exact getElem?_set_same _ _ _ _ hch
        · simp only
          rw [hb] at hlen
          simp only [List.length_cons] at hlen
          omega
      · refine ⟨c, ?_, ho, hcap, hlen⟩
        simp only
        rw [getElem?_set_other _ _ _ _ heq]
        exact hc

/-! ## Write arbitration -/

/-- C1: for every session, every user id that maps to a user whose role is ReadOnly and
every byte slice, `Session.Write` returns `ErrPermissionDenied` and returns the session
unchanged, so the terminal's `Write` is not called and the terminal has received
nothing; the read loop of the connection then goes on with the next frame. -/
theorem write_readOnly_denied {σ : Type} [PTYHandler σ] (s : Session σ) (userID : String)
    (u : User) (data : Bytes) (hu : mapGet s.Users userID = some u)
    (hr : u.Role = RoleReadOnly) :
    s.Write userID data = .ok (s, some ErrPermissionDenied) ∧
      ∀ rest, readFromWebSocket s userID (.binary data :: rest) =
        readFromWebSocket s userID rest := by
  have hw : s.Write userID data = .ok (s, some ErrPermissionDenied) := by
    simp [Session.Write, hu, hr]
  refine ⟨hw, ?_⟩
  intro rest
  simp [readFromWebSocket, hw]

theorem write_readOnly_denied_witness :
    mapGet demoSession2.Users "u-ro" =
        some { ID := "u-ro", Role := RoleReadOnly, WriteChan := 1, Connected := 2 } ∧
      demoSession2.Write "u-ro" rmBytes = .ok (demoSession2, some ErrPermissionDenied) :=
  ⟨by decide,
   (write_readOnly_denied demoSession2 "u-ro"
      { ID := "u-ro", Role := RoleReadOnly, WriteChan := 1, Connected := 2 } rmBytes
      (by decide) rfl).1⟩

/-- C2: the role given on join is a function of the presented token, the session's owner
secret and the requested-role string: Owner when the token equals the owner secret,
whatever role is requested; otherwise Interactive when the requested role is exactly
"interactive"; ReadOnly in every other case. -/
theorem determineRole_spec (token owner requestedRole : String) :
    (token = owner → determineRole token owner requestedRole = RoleOwner) ∧
    (token ≠ owner → requestedRole = "interactive" →
      determineRole token owner requestedRole = RoleInteractive) ∧
    (token ≠ owner → requestedRole ≠ "interactive" →
      determineRole token owner requestedRole = RoleReadOnly) := by
  refine ⟨?_, ?_, ?_⟩
  · intro h
    simp [determineRole, h]
  · intro h h'
    simp [determineRole, h, h']
  · intro h h'
    simp [determineRole, h, h']

theorem determineRole_spec_witness :
    determineRole "owner-secret" "owner-secret" "readonly" = RoleOwner ∧
    determineRole "guess" "owner-secret" "interactive" = RoleInteractive ∧
    determineRole "guess" "owner-secret" "owner" = RoleReadOnly :=
  ⟨(determineRole_spec "owner-secret" "owner-secret" "readonly").1 rfl,
   (determineRole_spec "guess" "owner-secret" "interactive").2.1 (by decide) rfl,
   (determineRole_spec "guess" "owner-secret" "owner").2.2 (by decide) (by decide)⟩

/-- A session created without a terminal in which an Owner is registered: the registry
invariant holds, and the Owner's `Write` does not call any terminal `Write` and returns
no error result; it panics with a nil dereference. -/
theorem write_panics_without_terminal :
    SessionWF demoSessionNoPTY ∧
    mapGet demoSessionNoPTY.Users "u-owner" =
      some { ID := "u-owner", Role := RoleOwner, WriteChan := 0, Connected := 1 } ∧
    demoSessionNoPTY.PTY = none ∧
    demoSessionNoPTY.Write "u-owner" lsBytes = .error .nilPointerDereference ∧
    ¬ ∃ r, demoSessionNoPTY.Write "u-owner" lsBytes = .ok r := by
  refine ⟨by decide, by decide, rfl, by decide, ?_⟩
  rintro ⟨r, hr⟩
  have h : demoSessionNoPTY.Write "u-owner" lsBytes = .error .nilPointerDereference := by
    decide
  rw [h] at hr
  cases hr

/-- C3, amended: `Session.Write` with a user id absent from the registry returns
`ErrUserNotFound` and the session unchanged; with a user id present whose role is Owner
or Interactive, on a session that has a terminal, it applies the terminal's `Write` once
to exactly the given bytes and returns the error result of that call. In the sample
session with an Owner and a ReadOnly user, after the Owner writes "ls\n" and the ReadOnly
user writes "rm -rf /\n" (which fails), the terminal has received exactly "ls\n". -/
theorem write_spec {σ : Type} [PTYHandler σ] (s : Session σ) (userID : String) (data : Bytes) :
    (mapGet s.Users userID = none → s.Write userID data = .ok (s, some ErrUserNotFound)) ∧
    (∀ u p, mapGet s.Users userID = some u → (u.Role = RoleOwner ∨ u.Role = RoleInteractive) →
      s.PTY = some p →
      s.Write userID data =
        .ok ({ s with PTY := some (PTYHandler.Write p data).1 }, (PTYHandler.Write p data).2.2)) ∧
    (∃ s3, demoSession2.Write "u-owner" lsBytes = .ok (s3, none) ∧
      s3.Write "u-ro" rmBytes = .ok (s3, some ErrPermissionDenied) ∧
      s3.PTY.map (fun t => t.val.ptmx.written) = some lsBytes) := by
  refine ⟨?_, ?_, ?_⟩
  · intro h
    simp [Session.Write, h]
  · intro u p hu hrole hp
    have hne : ¬ u.Role = RoleReadOnly := by
      rcases hrole with h | h <;> rw [h] <;> decide
    simp [Session.Write, hu, hne, hp]
  · exact ⟨_, rfl, by decide, by decide⟩

theorem write_spec_witness :
    demoSession2.Write "nobody" lsBytes = .ok (demoSession2, some ErrUserNotFound) ∧
    demoSession2.Write "u-owner" lsBytes =
      .ok ({ demoSession2 with PTY := some (PTYHandler.Write demoTerminal lsBytes).1 },
           (PTYHandler.Write demoTerminal lsBytes).2.2) :=
  ⟨(write_spec demoSession2 "nobody" lsBytes).1 (by decide),
   (write_spec demoSession2 "u-owner" lsBytes).2.1
      { ID := "u-owner", Role := RoleOwner, WriteChan := 0, Connected := 1 } demoTerminal
      (by decide) (Or.inl rfl) rfl⟩

/-! ## Broadcast -/

theorem push_room (c : Chan) (d : Bytes) (h : c.buf.length < c.cap) :
    c.push d = { c with buf := c.buf ++ [d] } := by
  simp [Chan.push, h]

theorem push_full (c : Chan) (d : Bytes) (h : ¬ c.buf.length < c.cap) : c.push d = c := by
  simp [Chan.push, h]

theorem BroadcastAll_spec {σ : Type} (s : Session σ) (hwf : SessionWF s) (ds : List Bytes) :
    ∃ s', s.BroadcastAll ds = .ok s' ∧ s'.Users = s.Users ∧ SessionWF s' ∧
      (∀ r, r ∉ s.Users.map (fun e => e.2.WriteChan) → s'.chans[r]? = s.chans[r]?) ∧
      (∀ e ∈ s.Users, ∀ c, s.chans[e.2.WriteChan]? = some c →
        c.buf.length + ds.length ≤ c.cap →
        s'.chans[e.2.WriteChan]? = some { c with buf := c.buf ++ ds }) := by
  induction ds generalizing s with
  | nil =>
    refine ⟨s, rfl, rfl, hwf, fun _ _ => rfl, ?_⟩
    intro e _ c hc _
    simp [hc]
  | cons d rest ih =>
    obtain ⟨h', hrun, hin, hout, hwf'⟩ := Broadcast_spec s hwf d
    obtain ⟨s', hrun', husers, hwf'', hout', hin'⟩ := ih { s with chans := h' } hwf'
    refine ⟨s', ?_, husers, hwf'', ?_, ?_⟩
    · simp only [Session.BroadcastAll, hrun]
      exact hrun'
    · intro r hr
      rw [hout' r hr]
      exact hout r hr
    · intro e he c hc hroom
      simp only [List.length_cons] at hroom
      have hlt : c.buf.length < c.cap := by omega
      have h1 : h'[e.2.WriteChan]? = some { c with buf := c.buf ++ [d] } := by
        rw [hin e he c hc, push_room c d hlt]
      have h2 := hin' e he { c with buf := c.buf ++ [d] } h1 (by
        simp only [List.length_append, List.length_singleton]; omega)
      rw [h2]
      simp

/-- C4: on a well-formed session (the registry invariant established for every reachable
state), `Broadcast(chunk)` completes without panic, leaves the set of users unchanged,
leaves the queue of every user whose queue is full (256 pending chunks) unchanged, and
appends the chunk to the queue of every user whose queue holds fewer than 256 chunks,
in the same call. -/
theorem broadcast_drops_on_full {σ : Type} (s : Session σ) (hwf : SessionWF s)
    (chunk : Bytes) :
    ∃ s', s.Broadcast chunk = .ok s' ∧ s'.Users = s.Users ∧
      ∀ k u c, (k, u) ∈ s.Users → s.chans[u.WriteChan]? = some c →
        (c.buf.length = 256 → s'.chans[u.WriteChan]? = some c) ∧
        (c.buf.length < 256 →
          s'.chans[u.WriteChan]? = some { c with buf := c.buf ++ [chunk] }) := by
  obtain ⟨h', hrun, hin, _, _⟩ := Broadcast_spec s hwf chunk
  refine ⟨_, hrun, rfl, ?_⟩
  intro k u c hmem hc
  obtain ⟨_, c', hc', _, hcap, _⟩ := wf_entry s hwf (k, u) hmem
  simp only at hc'
  rw [hc] at hc'
  have hcc : c = c' := Option.some.inj hc'
  subst hcc
  have hsend := hin (k, u) hmem c hc
  simp only at hsend
  constructor
  · intro hfull
    rw [hsend, push_full c chunk (by omega)]
  · intro hroom
    rw [hsend, push_room c chunk (by omega)]

theorem broadcast_drops_on_full_witness :
    SessionWF demoSessionFull ∧
      ∃ s', demoSessionFull.Broadcast rmBytes = .ok s' ∧ s'.Users = demoSessionFull.Users ∧
        ∀ k u c, (k, u) ∈ demoSessionFull.Users → demoSessionFull.chans[u.WriteChan]? = some c →
          (c.buf.length = 256 → s'.chans[u.WriteChan]? = some c) ∧
          (c.buf.length < 256 →
            s'.chans[u.WriteChan]? = some { c with buf := c.buf ++ [rmBytes] }) :=
  ⟨by decide, broadcast_drops_on_full demoSessionFull (by decide) rmBytes⟩

/-- C5: on a well-formed session, for every user of it and every sequence of chunks
broadcast one after the other (nothing else happening in between) such that the user's
queue has room for all of them, the user's queue afterwards is its prior content
followed by the chunks in broadcast order. In particular, in a session of three users
none of whose queues is full, one `Broadcast(x)` appends `x` at the end of all three
queues. -/
theorem broadcast_fifo {σ : Type} (s : Session σ) (hwf : SessionWF s) :
    (∀ k u c ds, (k, u) ∈ s.Users → s.chans[u.WriteChan]? = some c →
      c.buf.length + ds.length ≤ 256 →
      ∃ s', s.BroadcastAll ds = .ok s' ∧ s'.Users = s.Users ∧
        s'.chans[u.WriteChan]? = some { c with buf := c.buf ++ ds }) ∧
    (∀ e₁ e₂ e₃ c₁ c₂ c₃ x, s.Users = [e₁, e₂, e₃] →
      s.chans[e₁.2.WriteChan]? = some c₁ → s.chans[e₂.2.WriteChan]? = some c₂ →
      s.chans[e₃.2.WriteChan]? = some c₃ →
      c₁.buf.length < 256 → c₂.buf.length < 256 → c₃.buf.length < 256 →
      ∃ s', s.Broadcast x = .ok s' ∧
        s'.chans[e₁.2.WriteChan]? = some { c₁ with buf := c₁.buf ++ [x] } ∧
        s'.chans[e₂.2.WriteChan]? = some { c₂ with buf := c₂.buf ++ [x] } ∧
        s'.chans[e₃.2.WriteChan]? = some { c₃ with buf := c₃.buf ++ [x] }) := by
  have hcap : ∀ e ∈ s.Users, ∀ c, s.chans[e.2.WriteChan]? = some c → c.cap = 256 := by
    intro e he c hc
    obtain ⟨_, c', hc', _, hcap, _⟩ := wf_entry s hwf e he
    rw [hc] at hc'
    rw [Option.some.inj hc']
    exact hcap
  constructor
  · intro k u c ds hmem hc hroom
    obtain ⟨s', hrun, husers, _, _, hin⟩ := BroadcastAll_spec s hwf ds
    refine ⟨s', hrun, husers, hin (k, u) hmem c hc ?_⟩
    rw [hcap (k, u) hmem c hc]
    exact hroom
  · intro e₁ e₂ e₃ c₁ c₂ c₃ x hu h1 h2 h3 l1 l2 l3
    obtain ⟨h', hrun, hin, _, _⟩ := Broadcast_spec s hwf x
    have m1 : e₁ ∈ s.Users := by rw [hu]; simp
    have m2 : e₂ ∈ s.Users := by rw [hu]; simp
    have m3 : e₃ ∈ s.Users := by rw [hu]; simp
    refine ⟨_, hrun, ?_, ?_, ?_⟩
    · simp only
      rw [hin e₁ m1 c₁ h1, push_room c₁ x (by rw [hcap e₁ m1 c₁ h1]; exact l1)]
    · simp only
      rw [hin e₂ m2 c₂ h2, push_room c₂ x (by rw [hcap e₂ m2 c₂ h2]; exact l2)]
    · simp only
      rw [hin e₃ m3 c₃ h3, push_room c₃ x (by rw [hcap e₃ m3 c₃ h3]; exact l3)]

theorem broadcast_fifo_witness :
    SessionWF demoSession3 ∧
      (∃ s', demoSession3.BroadcastAll [lsBytes, rmBytes, lsBytes] = .ok s' ∧
        s'.Users = demoSession3.Users ∧
        s'.chans[1]? = some { demoChan 1 with buf := (demoChan 1).buf ++ [lsBytes, rmBytes, lsBytes] }) ∧
      (∃ s', demoSession3.Broadcast rmBytes = .ok s' ∧
        s'.chans[0]? = some { demoChan 0 with buf := (demoChan 0).buf ++ [rmBytes] } ∧
        s'.chans[1]? = some { demoChan 1 with buf := (demoChan 1).buf ++ [rmBytes] } ∧
        s'.chans[2]? = some { demoChan 255 with buf := (demoChan 255).buf ++ [rmBytes] }) :=
  ⟨by decide,
   (broadcast_fifo demoSession3 (by decide)).1 "u-ro"
      { ID := "u-ro", Role := RoleReadOnly, WriteChan := 1, Connected := 2 } (demoChan 1)
      [lsBytes, rmBytes, lsBytes] (by decide) rfl (by decide),
   (broadcast_fifo demoSession3 (by decide)).2
      ("u-owner", { ID := "u-owner", Role := RoleOwner, WriteChan := 0, Connected := 1 })
      ("u-ro", { ID := "u-ro", Role := RoleReadOnly, WriteChan := 1, Connected := 2 })
      ("u-int", { ID := "u-int", Role := RoleInteractive, WriteChan := 2, Connected := 3 })
      (demoChan 0) (demoChan 1) (demoChan 255) rmBytes rfl rfl rfl rfl
      (by decide) (by decide) (by decide)⟩

/-! ## Session teardown -/

/-- C7: if `id` is registered with a well-formed session, `DeleteSession(id)` completes,
removes exactly that entry (`GetSession(id)` is not-found afterwards, every other id
maps as before) and replaces the session by the result of one `CloseAll` on it: every
queue that was attached is closed, the user registry is empty, the terminal's `Close` has
been applied once, and no other session changes. If `id` is not registered,
`DeleteSession(id)` returns the manager unchanged; so does a second
`DeleteSession(id)`. -/
theorem deleteSession_spec {σ : Type} [PTYHandler σ] (m : Manager σ) (id : String) :
    (∀ ref s, m.GetSession id = some ref → m.heap[ref]? = some s → SessionWF s →
      ∃ s' m', s.CloseAll = .ok s' ∧ m.DeleteSession id = .ok m' ∧
        m'.GetSession id = none ∧
        (∀ id', id' ≠ id → m'.GetSession id' = m.GetSession id') ∧
        m'.heap[ref]? = some s' ∧
        (∀ r, r ≠ ref → m'.heap[r]? = m.heap[r]?) ∧
        s'.Users = [] ∧
        (∀ k u, (k, u) ∈ s.Users →
          ∃ c, s.chans[u.WriteChan]? = some c ∧
            s'.chans[u.WriteChan]? = some { c with closed := true }) ∧
        s'.PTY = s.PTY.map (fun p => (PTYHandler.Close p).1) ∧
        m'.DeleteSession id = .ok m') ∧
    (m.GetSession id = none → m.DeleteSession id = .ok m) := by
  constructor
  · intro ref s href hs hwf
    have hclose : ∃ s', s.CloseAll = .ok s' ∧ s'.Users = [] ∧
        s'.PTY = s.PTY.map (fun p => (PTYHandler.Close p).1) ∧
        ∀ e ∈ s.Users, ∀ c, s.chans[e.2.WriteChan]? = some c →
          s'.chans[e.2.WriteChan]? = some c.closeIt := by
      obtain ⟨h', hrun, hin, _⟩ := CloseAll_spec s hwf
      refine ⟨_, hrun, rfl, ?_, hin⟩
      cases s.PTY <;> rfl
    obtain ⟨s', hrun, husers, hpty, hin⟩ := hclose
    have hlt : ref < m.heap.length := (List.getElem?_eq_some_iff.mp hs).1
    have habs : mapGet (mapDelete m.sessions id) id = none := mapGet_mapDelete_self _ _
    refine ⟨s', { sessions := mapDelete m.sessions id, heap := m.heap.set ref s' }, hrun, ?_,
      habs, ?_, ?_, ?_, husers, ?_, hpty, ?_⟩
    · unfold Manager.GetSession at href
      simp only [Manager.DeleteSession, href, hs, hrun]
    · intro id' hne
      exact mapGet_mapDelete_ne _ _ _ hne
    · exact List.getElem?_set_self hlt
    · intro r hne
      exact List.getElem?_set_ne (Ne.symm hne)
    · intro k u hmem
      obtain ⟨c, hc, _⟩ := wf_open s hwf (k, u) hmem
      exact ⟨c, hc, hin (k, u) hmem c hc⟩
    · simp [Manager.DeleteSession, habs]
  · intro h
    unfold Manager.GetSession at h
    simp [Manager.DeleteSession, h]

theorem deleteSession_spec_witness :
    (demoManager2.GetSession "1a2b3c4d" = some 0 ∧ demoManager2.heap[0]? = some demoSession2 ∧
      SessionWF demoSession2) ∧
      (∃ s' m', demoSession2.CloseAll = .ok s' ∧
        demoManager2.DeleteSession "1a2b3c4d" = .ok m' ∧
        m'.GetSession "1a2b3c4d" = none ∧
        (∀ id', id' ≠ "1a2b3c4d" → m'.GetSession id' = demoManager2.GetSession id') ∧
        m'.heap[0]? = some s' ∧
        (∀ r, r ≠ 0 → m'.heap[r]? = demoManager2.heap[r]?) ∧
        s'.Users = [] ∧
        (∀ k u, (k, u) ∈ demoSession2.Users →
          ∃ c, demoSession2.chans[u.WriteChan]? = some c ∧
            s'.chans[u.WriteChan]? = some { c with closed := true }) ∧
        s'.PTY = demoSession2.PTY.map (fun p => (PTYHandler.Close p).1) ∧
        m'.DeleteSession "1a2b3c4d" = .ok m') ∧
      demoManager2.DeleteSession "other" = .ok demoManager2 :=
  ⟨⟨by decide, by decide, by decide⟩,
   (deleteSession_spec demoManager2 "1a2b3c4d").1 0 demoSession2 (by decide) (by decide)
      (by decide),
   (deleteSession_spec demoManager2 "other").2 (by decide)⟩

/-! ## The registry invariant over runs -/

theorem step_wf {σ : Type} [PTYHandler σ] (s : Session σ) (hwf : SessionWF s) (op : SessionOp) :
    (∃ s', s.step op = .ok s' ∧ SessionWF s' ∧ s'.PTY.isSome = s.PTY.isSome) ∨
      (s.step op = .error .nilPointerDereference ∧ s.PTY = none) := by
  cases op with
  | addUser userID now role =>
    exact Or.inl ⟨_, rfl, wf_AddUser s hwf userID now role, rfl⟩
  | removeUser userID =>
    left
    cases hu : mapGet s.Users userID with
    | none => exact ⟨s, RemoveUser_absent s userID hu, hwf, rfl⟩
    | some u =>
      obtain ⟨c, _, _, hrun, hwf'⟩ := RemoveUser_present s hwf userID u hu
      exact ⟨_, hrun, hwf', rfl⟩
  | broadcast data =>
    obtain ⟨h', hrun, _, _, hwf'⟩ := Broadcast_spec s hwf data
    exact Or.inl ⟨_, hrun, hwf', rfl⟩
  | write userID data =>
    cases hw : s.Write userID data with
    | error p =>
      obtain ⟨hp, hnone⟩ := Write_panic s userID data p hw
      right
      simp only [Session.step, hw]
      exact ⟨by rw [hp], hnone⟩
    | ok r =>
      obtain ⟨hu, hc⟩ := Write_registry s userID data r hw
      left
      refine ⟨r.1, by simp only [Session.step, hw], wf_same_registry s r.1 hwf hu hc, ?_⟩
      unfold Session.Write at hw
      split at hw
      · cases hw; rfl
      · split at hw
        · cases hw; rfl
        · split at hw
          · cases hw
          · next hp => cases hw; simp [hp]
  | getUsers => exact Or.inl ⟨s, rfl, hwf, rfl⟩
  | closeAll =>
    obtain ⟨h', hrun, _, _⟩ := CloseAll_spec s hwf
    refine Or.inl ⟨_, hrun, wf_empty_registry _ rfl, ?_⟩
    cases s.PTY <;> rfl
  | receive ch =>
    left
    cases hr : recvChan s.chans ch with
    | none => exact ⟨s, by simp only [Session.step, hr], hwf, rfl⟩
    | some r => exact ⟨_, by simp only [Session.step, hr], wf_receive s hwf ch r hr, rfl⟩

theorem run_wf {σ : Type} [PTYHandler σ] (s : Session σ) (hwf : SessionWF s)
    (ops : List SessionOp) :
    (∃ s', s.run ops = .ok s' ∧ SessionWF s' ∧ s'.PTY.isSome = s.PTY.isSome) ∨
      (s.run ops = .error .nilPointerDereference ∧ s.PTY = none) := by
  induction ops generalizing s with
  | nil => exact Or.inl ⟨s, rfl, hwf, rfl⟩
  | cons op rest ih =>
    rcases step_wf s hwf op with ⟨s₁, hstep, hwf₁, hpty⟩ | ⟨hstep, hnone⟩
    · rcases ih s₁ hwf₁ with ⟨s', hrun, hwf', hpty'⟩ | ⟨hrun, hnone⟩
      · exact Or.inl ⟨s', by simp only [Session.run, hstep]; exact hrun, hwf', hpty'.trans hpty⟩
      · right
        refine ⟨by simp only [Session.run, hstep]; exact hrun, ?_⟩
        rw [hnone] at hpty
        cases hp : s.PTY with
        | none => rfl
        | some p => rw [hp] at hpty; cases hpty
    · exact Or.inr ⟨by simp only [Session.run, hstep], hnone⟩

/-- C10: every run of `AddUser`, `RemoveUser`, `Broadcast`, `Write`, `GetUsers`, `CloseAll`
(and receives on the queues) from a newly created session either completes or stops at
the nil-terminal panic of `Write` on a session created without a terminal; it never
panics on a queue. In every state so reached, every user in the map is keyed by its own
id and has an open queue of capacity 256 holding at most 256 chunks; hence `Broadcast`
and `RemoveUser` complete there, `CloseAll` completes, and after it `RemoveUser` and a
second `CloseAll` close nothing again. -/
theorem registry_invariant {σ : Type} [PTYHandler σ] (sessionID ownerID : String) (now : Nat)
    (pty : Option σ) (ops : List SessionOp) :
    ((∃ s, (newSession sessionID ownerID now pty).run ops = .ok s) ∨
      ((newSession sessionID ownerID now pty).run ops = .error .nilPointerDereference ∧
        pty = none)) ∧
    ∀ s, (newSession sessionID ownerID now pty).run ops = .ok s →
      (∀ k u, (k, u) ∈ s.Users →
        u.ID = k ∧ ∃ c, s.chans[u.WriteChan]? = some c ∧ c.closed = false ∧ c.cap = 256 ∧
          c.buf.length ≤ 256) ∧
      (∀ d, ∃ s', s.Broadcast d = .ok s') ∧
      (∀ id, ∃ s', s.RemoveUser id = .ok s') ∧
      ∃ s₁, s.CloseAll = .ok s₁ ∧ (∀ id, s₁.RemoveUser id = .ok s₁) ∧
        ∃ s₂, s₁.CloseAll = .ok s₂ ∧ s₂.chans = s₁.chans := by
  have hrun := run_wf (newSession sessionID ownerID now pty)
    (wf_newSession sessionID ownerID now pty) ops
  constructor
  · rcases hrun with ⟨s, hs, _, _⟩ | ⟨he, hnone⟩
    · exact Or.inl ⟨s, hs⟩
    · exact Or.inr ⟨he, hnone⟩
  · intro s hs
    have hwf : SessionWF s := by
      rcases hrun with ⟨s', hs', hwf', _⟩ | ⟨he, _⟩
      · rw [hs] at hs'
        cases hs'
        exact hwf'
      · rw [hs] at he
        cases he
    refine ⟨fun k u hmem => wf_entry s hwf (k, u) hmem, ?_, ?_, ?_⟩
    · intro d
      obtain ⟨h', hb, _⟩ := Broadcast_spec s hwf d
      exact ⟨_, hb⟩
    · intro id
      cases hu : mapGet s.Users id with
      | none => exact ⟨s, RemoveUser_absent s id hu⟩
      | some u =>
        obtain ⟨c, _, _, hr, _⟩ := RemoveUser_present s hwf id u hu
        exact ⟨_, hr⟩
    · obtain ⟨h', hc, _, _⟩ := CloseAll_spec s hwf
      refine ⟨_, hc, ?_, ?_⟩
      · intro id
        exact RemoveUser_absent _ id rfl
      · exact ⟨_, rfl, rfl⟩

theorem registry_invariant_witness :
    (newSession "1a2b3c4d" "owner-secret" 0 (some demoTerminal)).run demoOps = .ok demoFinal ∧
    ((∀ k u, (k, u) ∈ demoFinal.Users →
        u.ID = k ∧ ∃ c, demoFinal.chans[u.WriteChan]? = some c ∧ c.closed = false ∧
          c.cap = 256 ∧ c.buf.length ≤ 256) ∧
      (∀ d, ∃ s', demoFinal.Broadcast d = .ok s') ∧
      (∀ id, ∃ s', demoFinal.RemoveUser id = .ok s') ∧
      ∃ s₁, demoFinal.CloseAll = .ok s₁ ∧ (∀ id, s₁.RemoveUser id = .ok s₁) ∧
        ∃ s₂, s₁.CloseAll = .ok s₂ ∧ s₂.chans = s₁.chans) ∧
    (newSession "1a2b3c4d" "owner-secret" 0 (none : Option ClosableTerminal)).run demoOps =
      .error .nilPointerDereference :=
  ⟨by decide,
   (registry_invariant "1a2b3c4d" "owner-secret" 0 (some demoTerminal) demoOps).2 demoFinal
      (by decide),
   by decide⟩

/-! ## Removing users -/

theorem removed_ref_fresh {σ : Type} (s : Session σ) (hwf : SessionWF s) (userID : String)
    (u : User) (h : mapGet s.Users userID = some u) :
    u.WriteChan ∉ (mapDelete s.Users userID).map (fun e => e.2.WriteChan) := by
  have hmem := mem_of_mapGet _ _ _ h
  intro hin
  obtain ⟨e, he, heq⟩ := List.mem_map.mp hin
  obtain ⟨hmem', hkey⟩ := (mem_mapDelete _ _ _).mp he
  have := List.inj_on_of_nodup_map hwf.2.1 hmem' hmem heq
  exact hkey (by rw [this])

theorem recvChan_other (h : ChanStore) (ch r : Nat) (res : ChanStore × Bytes × Bool)
    (hrc : recvChan h ch = some res) (hne : r ≠ ch) : res.1[r]? = h[r]? := by
  unfold recvChan at hrc
  cases hch : h[ch]? with
  | none => simp [hch] at hrc
  | some c₀ =>
    simp only [hch] at hrc
    cases hb : c₀.buf with
    | nil =>
      simp only [hb] at hrc
      split at hrc
      · cases hrc; rfl
      · cases hrc
    | cons x rest =>
      simp only [hb, Option.some.injEq] at hrc
      subst hrc
      exact getElem?_set_other _ _ _ _ hne

theorem refs_mapDelete_subset (users : List (String × User)) (k : String) (r : Nat)
    (hr : r ∉ users.map (fun e => e.2.WriteChan)) :
    r ∉ (mapDelete users k).map (fun e => e.2.WriteChan) :=
  fun hin => hr (((mapDelete_sublist users k).map _).subset hin)

theorem step_keeps_detached {σ : Type} [PTYHandler σ] (s : Session σ) (hwf : SessionWF s)
    (r : Nat) (c : Chan) (hc : s.chans[r]? = some c)
    (hr : r ∉ s.Users.map (fun e => e.2.WriteChan)) (op : SessionOp)
    (hop : op ≠ .receive r) (s' : Session σ) (h : s.step op = .ok s') :
    s'.chans[r]? = some c ∧ r ∉ s'.Users.map (fun e => e.2.WriteChan) ∧ SessionWF s' := by
  have hwf' : SessionWF s' := by
    rcases step_wf s hwf op with ⟨s'', hs'', hw, _⟩ | ⟨he, _⟩
    · rw [h] at hs''
      cases hs''
      exact hw
    · rw [h] at he
      cases he
  have hlt : r < s.chans.length := (List.getElem?_eq_some_iff.mp hc).1
  refine ⟨?_, ?_, hwf'⟩
  · cases op with
    | addUser userID now role =>
      cases h
      simp only [Session.AddUser, makeChan]
      rw [List.getElem?_append_left hlt]
      exact hc
    | removeUser userID =>
      simp only [Session.step] at h
      cases hu : mapGet s.Users userID with
      | none =>
        rw [RemoveUser_absent s userID hu] at h
        cases h
        exact hc
      | some u =>
        obtain ⟨c', _, _, hrun, _⟩ := RemoveUser_present s hwf userID u hu
        rw [hrun] at h
        cases h
        have hne : r ≠ u.WriteChan := by
          intro heq
          apply hr
          rw [heq]
          exact List.mem_map.mpr ⟨(userID, u), mem_of_mapGet _ _ _ hu, rfl⟩
        simp only
        rw [getElem?_set_other _ _ _ _ hne]
        exact hc
    | broadcast data =>
      obtain ⟨h', hrun, _, hout, _⟩ := Broadcast_spec s hwf data
      simp only [Session.step] at h
      rw [hrun] at h
      cases h
      simp only
      rw [hout r hr]
      exact hc
    | write userID data =>
      simp only [Session.step] at h
      cases hw : s.Write userID data with
      | error p => rw [hw] at h; cases h
      | ok res =>
        rw [hw] at h
        cases h
        rw [(Write_registry s userID data res hw).2]
        exact hc
    | getUsers =>
      cases h
      exact hc
    | closeAll =>
      obtain ⟨h', hrun, _, hout⟩ := CloseAll_spec s hwf
      simp only [Session.step] at h
      rw [hrun] at h
      cases h
      simp only
      rw [hout r hr]
      exact hc
    | receive ch =>
      have hne : r ≠ ch := fun heq => hop (by rw [heq])
      simp only [Session.step] at h
      cases hrc : recvChan s.chans ch with
      | none =>
        rw [hrc] at h
        cases h
        exact hc
      | some res =>
        rw [hrc] at h
        cases h
        simp only
        rw [recvChan_other s.chans ch r res hrc hne]
        exact hc
  · cases op with
    | addUser userID now role =>
      cases h
      simp only [Session.AddUser, mapSet, makeChan, List.map_append, List.map_cons,
        List.map_nil, List.mem_append, List.mem_singleton, not_or]
      exact ⟨refs_mapDelete_subset _ _ _ hr, by omega⟩
    | removeUser userID =>
      simp only [Session.step] at h
      cases hu : mapGet s.Users userID with
      | none =>
        rw [RemoveUser_absent s userID hu] at h
        cases h
        exact hr
      | some u =>
        obtain ⟨c', _, _, hrun, _⟩ := RemoveUser_present s hwf userID u hu
        rw [hrun] at h
        cases h
        exact refs_mapDelete_subset _ _ _ hr
    | broadcast data =>
      obtain ⟨h', hrun, _, _, _⟩ := Broadcast_spec s hwf data
      simp only [Session.step] at h
      rw [hrun] at h
      cases h
      exact hr
    | write userID data =>
      simp only [Session.step] at h
      cases hw : s.Write userID data with
      | error p => rw [hw] at h; cases h
      | ok res =>
        rw [hw] at h
        cases h
        rw [(Write_registry s userID data res hw).1]
        exact hr
    | getUsers =>
      cases h
      exact hr
    | closeAll =>
      obtain ⟨h', hrun, _, _⟩ := CloseAll_spec s hwf
      simp only [Session.step] at h
      rw [hrun] at h
      cases h
      simp
    | receive ch =>
      simp only [Session.step] at h
      cases hrc : recvChan s.chans ch with
      | none =>
        rw [hrc] at h
        cases h
        exact hr
      | some res =>
        rw [hrc] at h
        cases h
        exact hr

theorem run_keeps_detached {σ : Type} [PTYHandler σ] (s : Session σ) (hwf : SessionWF s)
    (r : Nat) (c : Chan) (hc : s.chans[r]? = some c)
    (hr : r ∉ s.Users.map (fun e => e.2.WriteChan)) (ops : List SessionOp)
    (hops : SessionOp.receive r ∉ ops) (s' : Session σ) (h : s.run ops = .ok s') :
    s'.chans[r]? = some c := by
  induction ops generalizing s with
  | nil =>
    cases h
    exact hc
  | cons op rest ih =>
    simp only [List.mem_cons, not_or] at hops
    simp only [Session.run] at h
    cases hstep : s.step op with
    | error p => rw [hstep] at h; cases h
    | ok s₁ =>
      rw [hstep] at h
      obtain ⟨hc₁, hr₁, hwf₁⟩ :=
        step_keeps_detached s hwf r c hc hr op (fun e => hops.1 e.symm) s₁ hstep
      exact ih s₁ hwf₁ hc₁ hr₁ hops.2 h

/-- C6: on a well-formed session, `RemoveUser(id)` of a registered user completes,
leaves the user absent from the registry and its queue closed with its content kept;
any later broadcasts, also when other operations of the session run in between, leave
that queue as it is (nothing is delivered to it); a second `RemoveUser(id)` returns the
session unchanged. `RemoveUser` of an absent id returns the session unchanged: no
panic, no queue closed. -/
theorem removeUser_spec {σ : Type} [PTYHandler σ] (s : Session σ) (hwf : SessionWF s)
    (userID : String) :
    (∀ u, mapGet s.Users userID = some u →
      ∃ s₁ c, s.RemoveUser userID = .ok s₁ ∧ mapGet s₁.Users userID = none ∧
        s.chans[u.WriteChan]? = some c ∧ c.closed = false ∧
        s₁.chans[u.WriteChan]? = some { c with closed := true } ∧
        (∀ ds, ∃ s₂, s₁.BroadcastAll ds = .ok s₂ ∧
          s₂.chans[u.WriteChan]? = some { c with closed := true } ∧
          mapGet s₂.Users userID = none) ∧
        (∀ ops s₂, SessionOp.receive u.WriteChan ∉ ops → s₁.run ops = .ok s₂ →
          s₂.chans[u.WriteChan]? = some { c with closed := true }) ∧
        s₁.RemoveUser userID = .ok s₁) ∧
    (mapGet s.Users userID = none → s.RemoveUser userID = .ok s) := by
  constructor
  · intro u hu
    obtain ⟨c, hc, ho, hrun, hwf'⟩ := RemoveUser_present s hwf userID u hu
    have habs : mapGet (mapDelete s.Users userID) userID = none := mapGet_mapDelete_self _ _
    have hch : (s.chans.set u.WriteChan c.closeIt)[u.WriteChan]? =
        some { c with closed := true } := getElem?_set_same _ _ _ _ hc
    have hfresh := removed_ref_fresh s hwf userID u hu
    refine ⟨_, c, hrun, habs, hc, ho, hch, ?_, ?_, RemoveUser_absent _ _ habs⟩
    · intro ds
      obtain ⟨s₂, hrun₂, husers, _, hout, _⟩ := BroadcastAll_spec _ hwf' ds
      refine ⟨s₂, hrun₂, ?_, ?_⟩
      · rw [hout _ hfresh]
        exact hch
      · rw [husers]
        exact habs
    · intro ops s₂ hops hrun₂
      exact run_keeps_detached _ hwf' u.WriteChan _ hch hfresh ops hops s₂ hrun₂
  · exact RemoveUser_absent s userID

theorem removeUser_spec_witness :
    SessionWF demoSession2 ∧
      (∃ s₁ c, demoSession2.RemoveUser "u-ro" = .ok s₁ ∧ mapGet s₁.Users "u-ro" = none ∧
        demoSession2.chans[1]? = some c ∧ c.closed = false ∧
        s₁.chans[1]? = some { c with closed := true } ∧
        (∀ ds, ∃ s₂, s₁.BroadcastAll ds = .ok s₂ ∧
          s₂.chans[1]? = some { c with closed := true } ∧ mapGet s₂.Users "u-ro" = none) ∧
        (∀ ops s₂, SessionOp.receive 1 ∉ ops → s₁.run ops = .ok s₂ →
          s₂.chans[1]? = some { c with closed := true }) ∧
        s₁.RemoveUser "u-ro" = .ok s₁) ∧
      demoSession2.RemoveUser "nobody" = .ok demoSession2 :=
  ⟨by decide,
   (removeUser_spec demoSession2 (by decide) "u-ro").1
      { ID := "u-ro", Role := RoleReadOnly, WriteChan := 1, Connected := 2 } (by decide),
   (removeUser_spec demoSession2 (by decide) "nobody").2 (by decide)⟩

/-! ## Closing the terminal -/

theorem Close_of_closed (t : Terminal) (h : t.closed = true) : t.Close = some (t, none) := by
  simp [Terminal.Close, h]

theorem CloseN_of_closed (t : Terminal) (h : t.closed = true) (n : Nat) :
    t.CloseN n = some (t, List.replicate n none) := by
  induction n with
  | zero => rfl
  | succ n ih => simp [Terminal.CloseN, Close_of_closed t h, ih, List.replicate_succ]

theorem Close_of_open (t : Terminal) (h : t.closed = false) (w : Cmd × Child)
    (hw : t.cmd.Wait t.child = some w) :
    t.Close = some ({ t with
      closed := true
      kills := t.signalGroup
      ptmx := t.ptmx.Close.1
      cmd := w.1
      child := w.2 }, none) := by
  simp [Terminal.Close, h, hw]

theorem Wait_returns (c : Cmd) (child : Child) (hexit : child ≠ .alive false) :
    ∃ w, c.Wait child = some w ∧ w.1.waitCalls = c.waitCalls + 1 ∧
      w.1.Process = c.Process ∧
      (c.Process.isSome = true → c.reaped = false → child ≠ .gone →
        w.1.reaped = true ∧ w.2 = .gone) ∧
      (c.Process = none ∨ child = .gone → w.1.reaped = c.reaped ∧ w.2 = child) := by
  obtain ⟨proc, calls, reaped⟩ := c
  cases proc with
  | none => exact ⟨_, rfl, rfl, rfl, by simp, fun _ => ⟨rfl, rfl⟩⟩
  | some pid =>
    cases reaped with
    | true => exact ⟨_, rfl, rfl, rfl, by simp, by simp⟩
    | false =>
      cases child with
      | gone => exact ⟨_, rfl, rfl, rfl, by simp, by simp⟩
      | zombie => exact ⟨_, rfl, rfl, rfl, by simp, by simp⟩
      | alive exits =>
        cases exits with
        | false => exact absurd rfl hexit
        | true => exact ⟨_, rfl, rfl, rfl, by simp, by simp⟩

/-- Two started terminals on which the claim of C8 fails. On one the child never exits:
the first `Close` never returns, and neither does a sequence of three calls. On the
other the child is already gone: the first `Close` returns after closing the descriptor
and calling `Wait`, but sends no signal and collects no child. -/
theorem close_not_always_signal_reap_return :
    (demoShellStuck.closed = false ∧ demoShellStuck.Close = none ∧
      demoShellStuck.CloseN 3 = none) ∧
    (demoShellGone.closed = false ∧ demoShellGone.cmd.Process = some 4242 ∧
      ∃ t', demoShellGone.Close = some (t', none) ∧ t'.closed = true ∧
        t'.ptmx.closeCalls = 1 ∧ t'.cmd.waitCalls = 1 ∧ t'.kills = [] ∧
        t'.cmd.reaped = false) := by
  refine ⟨by decide, by decide, by decide, ?_⟩
  exact ⟨(demoShellGone.Close.get (by decide)).1, by decide, by decide, by decide, by decide,
    by decide, by decide⟩

/-- C8, amended: `Terminal.Close` is idempotent on every terminal whose child exits once
it is signalled and hung up, or has exited already: for every `n ≥ 1`, `n` calls of
`Close` all return success and leave the same terminal state as one call, with the
closed flag set; a further call changes nothing. On a terminal already closed a call
changes nothing. On a terminal not yet closed the first call closes the descriptor once
and calls `Wait` once; it sends SIGTERM to the process group once when the process
handle is set and the child is still in the process table (the process-group lookup
succeeds), and sends no signal otherwise; its `Wait` collects the child when the
process handle is set and the child is still in the process table, and collects
nothing when there is no process handle or the child is gone. -/
theorem close_idempotent (t : Terminal) (n : Nat) (hn : 1 ≤ n)
    (hexit : t.child ≠ .alive false) :
    ∃ t', t.Close = some (t', none) ∧ t.CloseN n = some (t', List.replicate n none) ∧
      t'.closed = true ∧ t'.Close = some (t', none) ∧
      (t.closed = true → t' = t) ∧
      (t.closed = false →
        t'.ptmx.closeCalls = t.ptmx.closeCalls + 1 ∧
        t'.ptmx.closed = true ∧
        t'.cmd.waitCalls = t.cmd.waitCalls + 1 ∧
        (t.cmd.Process.isSome = true → t.child ≠ .gone →
          t'.kills = t.kills ++ [(-(t.pgid : Int), SIGTERM)]) ∧
        (t.cmd.Process = none ∨ t.child = .gone → t'.kills = t.kills) ∧
        (t.cmd.Process.isSome = true → t.cmd.reaped = false → t.child ≠ .gone →
          t'.cmd.reaped = true ∧ t'.child = .gone) ∧
        (t.cmd.Process = none ∨ t.child = .gone →
          t'.cmd.reaped = t.cmd.reaped ∧ t'.child = t.child)) := by
  obtain ⟨m, rfl⟩ : ∃ m, n = m + 1 := ⟨n - 1, by omega⟩
  cases hc : t.closed with
  | true =>
    refine ⟨t, Close_of_closed t hc, CloseN_of_closed t hc _, hc, Close_of_closed t hc,
      fun _ => rfl, ?_⟩
    intro h
    cases h
  | false =>
    obtain ⟨w, hw, hcalls, hproc, hreap, hnone⟩ := Wait_returns t.cmd t.child hexit
    have hclose := Close_of_open t hc w hw
    refine ⟨_, hclose, ?_, rfl, Close_of_closed _ rfl, ?_, ?_⟩
    · have hrest := CloseN_of_closed ({ t with
          closed := true
          kills := t.signalGroup
          ptmx := t.ptmx.Close.1
          cmd := w.1
          child := w.2 } : Terminal) rfl m
      simp only [Terminal.CloseN, hclose, hrest, List.replicate_succ]
    · intro h
      cases h
    · intro _
      refine ⟨?_, ?_, hcalls, ?_, ?_, hreap, hnone⟩
      · simp only [File.Close]
        split <;> rfl
      · simp only [File.Close]
        split
        · next h => exact h
        · rfl
      · intro hp hg
        cases hpp : t.cmd.Process with
        | none => rw [hpp] at hp; cases hp
        | some pid =>
          cases hch : t.child with
          | gone => exact absurd hch hg
          | zombie => simp [Terminal.signalGroup, Terminal.Getpgid, hpp, hch]
          | alive exits => simp [Terminal.signalGroup, Terminal.Getpgid, hpp, hch]
      · rintro (hp | hg)
        · simp [Terminal.signalGroup, hp]
        · simp only [Terminal.signalGroup, Terminal.Getpgid, hg]
          split <;> rfl

theorem close_idempotent_witness :
    (1 ≤ 3 ∧ demoShell.child ≠ .alive false) ∧
      ∃ t', demoShell.Close = some (t', none) ∧
        demoShell.CloseN 3 = some (t', [none, none, none]) ∧
        t'.kills = [(-4242, SIGTERM)] ∧ t'.cmd.reaped = true ∧ t'.child = .gone :=
  ⟨⟨by decide, by decide⟩,
   (close_idempotent demoShell 3 (by decide) (by decide)).elim
     (fun t' h => ⟨t', h.1, h.2.1,
       (h.2.2.2.2.2 rfl).2.2.2.1 rfl (by decide),
       (h.2.2.2.2.2 rfl).2.2.2.2.2.1 rfl rfl (by decide)⟩)⟩

/-! ## Control messages -/

/-- C9: the handling of a resize message whose data is an object without numeric rows
and cols panics. On `{"type":"resize","data":{}}` and on a resize whose rows is a
string, `handleControlMessage` does not return normally: the unchecked type assertion
panics, the panic leaves the read loop of the connection, and the frames that follow
are not handled. Only a data payload that is not an object is skipped silently. -/
theorem resize_malformed_panics :
    handleControlMessage demoSession2 "u-ro" resizeEmpty = .error .interfaceConversion ∧
    handleControlMessage demoSession2 "u-ro" resizeRowsString = .error .interfaceConversion ∧
    readFromWebSocket demoSession2 "u-owner" [.text (some resizeEmpty), .binary lsBytes] =
      .error .interfaceConversion ∧
    handleControlMessage demoSession2 "u-ro" resizeArray = .ok demoSession2 := by
  refine ⟨by decide, by decide, by decide, by decide⟩

end Shlx
